import Mathlib

/-!
Verification of the chunking / answer-synthesis core of the hackRX
document question-answering pipeline.

The development shallowly embeds the Python sources:
  * `src/pipeline/splitter.py`   (`chunk_text`, `smart_chunk_text`)
  * `src/pipeline/run_pipeline.py` (`process_file`, `generate_improved_answer`
    and the per-category extractors)
  * `src/pipeline/formatter.py`  (`format_context_and_query`)

External collaborators (the tiktoken encoder/decoder, the vector store,
the embedding model, file-format text extraction) are modelled as explicit
function parameters, exactly as the spec scopes them out.  Python `re`
scanning is embedded by a small backtracking engine (`reMatch`/`reFindall`)
whose preference order mirrors Python: alternation prefers the left branch,
greedy repetition prefers longer, lazy repetition prefers shorter, and
`findall` returns leftmost non-overlapping matches.  Python floats used as
similarity scores are modelled as rationals; Python exceptions are modelled
with `Except String`.
-/

namespace HackRX

/-! ## Decimal rendering of naturals (Python `str(n)` / f-string formatting) -/

/-- Little-endian decimal digits of `n`, with explicit fuel (enough fuel is
`n` itself, see `decDigits_eq_digits`). -/
def decDigits : Nat → Nat → List Nat
  | 0, _ => []
  | fuel + 1, n => if n = 0 then [] else n % 10 :: decDigits fuel (n / 10)

/-- The ASCII digit character for a digit value. -/
def digitCharOf (d : Nat) : Char := Char.ofNat (48 + d)

/-- Python `str(n)` for a natural number: decimal digits, most significant
first, and `"0"` for zero. -/
def natToDec (n : Nat) : String :=
  if n = 0 then "0" else String.mk (((decDigits (n + 1) n).map digitCharOf).reverse)

theorem decDigits_eq_digits : ∀ fuel n, n ≤ fuel → decDigits fuel n = Nat.digits 10 n := by
  intro fuel
  induction fuel with
  | zero =>
    intro n hn
    interval_cases n
    simp [decDigits]
  | succ f ih =>
    intro n hn
    by_cases h0 : n = 0
    · simp [decDigits, h0]
    · rw [decDigits, if_neg h0, Nat.digits_def' (by norm_num : 1 < 10) (Nat.pos_of_ne_zero h0)]
      have : n / 10 ≤ f := by
        have := Nat.div_lt_self (Nat.pos_of_ne_zero h0) (by norm_num : 1 < 10)
        omega
      rw [ih _ this]

/-- Reading a big-endian list of decimal digit characters back into a number:
the left inverse used to show `natToDec` is injective. -/
def decValue (l : List Char) : Nat := l.foldl (fun acc c => acc * 10 + (c.toNat - 48)) 0

theorem digitCharOf_toNat : ∀ d : Fin 10, (digitCharOf d).toNat = 48 + d := by decide

theorem decValue_foldl (l : List Nat) (h : ∀ d ∈ l, d < 10) : ∀ acc : Nat,
    ((l.map digitCharOf).reverse).foldl (fun acc c => acc * 10 + (c.toNat - 48)) acc =
      acc * 10 ^ l.length + Nat.ofDigits 10 l := by
  induction l with
  | nil => intro acc; simp
  | cons d ds ih =>
    intro acc
    have hd : d < 10 := h d (by simp)
    have hds : ∀ x ∈ ds, x < 10 := fun x hx => h x (by simp [hx])
    have htn : (digitCharOf d).toNat = 48 + d := digitCharOf_toNat ⟨d, hd⟩
    simp only [List.map_cons, List.reverse_cons, List.foldl_append, List.foldl_cons,
      List.foldl_nil, ih hds acc, Nat.ofDigits_cons, htn, List.length_cons]
    ring_nf
    omega

theorem decValue_natToDec (n : Nat) : decValue (natToDec n).data = n := by
  by_cases h0 : n = 0
  · subst h0; decide
  · have hdig : decDigits (n + 1) n = Nat.digits 10 n :=
      decDigits_eq_digits (n + 1) n (by omega)
    have hlt : ∀ d ∈ Nat.digits 10 n, d < 10 := fun d hd =>
      Nat.digits_lt_base (by norm_num) hd
    simp only [natToDec, if_neg h0, String.mk, decValue, hdig]
    rw [decValue_foldl _ hlt 0]
    simp [Nat.ofDigits_digits]

theorem natToDec_injective : Function.Injective natToDec := by
  intro m n h
  have := congrArg (fun s : String => decValue s.data) h
  simpa [decValue_natToDec] using this

/-! ## Python membership and slicing helpers -/

/-- `needle` occurs as a contiguous sublist of `hay` (Python `sub in s`). -/
def listContains : List Char → List Char → Bool
  | [], needle => needle.isPrefixOf []
  | c :: t, needle => needle.isPrefixOf (c :: t) || listContains t needle

/-- Python `sub in s` on strings. -/
def strContains (hay sub : String) : Bool := listContains hay.data sub.data

theorem listContains_append_right (x hay needle : List Char) :
    listContains hay needle = true → listContains (x ++ hay) needle = true := by
  induction x with
  | nil => simp
  | cons c cs ih =>
    intro h
    simp only [List.cons_append, listContains, Bool.or_eq_true]
    exact Or.inr (ih h)

theorem listContains_of_isPrefixOf (hay needle : List Char) :
    needle.isPrefixOf hay = true → listContains hay needle = true := by
  intro h
  cases hay <;> simp_all [listContains]

theorem listContains_self_append (needle rest : List Char) :
    listContains (needle ++ rest) needle = true :=
  listContains_of_isPrefixOf _ _ (by simp [List.isPrefixOf_iff_prefix])

/-- Python `\w` (ASCII): letters, digits, underscore. -/
def isWordChar (c : Char) : Bool := c.isAlphanum || c = '_'

/-- Python `\s` (ASCII). -/
def isSpaceChar (c : Char) : Bool :=
  c = ' ' || c = '\t' || c = '\n' || c = '\r' || c = '\x0b' || c = '\x0c'

/-- Python `str.lower()` (ASCII case folding, as the sources rely on). -/
def pyLower (s : String) : String := String.mk (s.data.map Char.toLower)

/-- Python `str.strip()`: leading and trailing whitespace removed. -/
def pyStrip (s : String) : String :=
  String.mk (((s.data.dropWhile isSpaceChar).reverse.dropWhile isSpaceChar).reverse)

/-- Python `str.split(sep)` for a non-empty separator, fueled scan over the
characters (enough fuel is the length of the subject). -/
def splitAux (sep : List Char) : Nat → List Char → List Char → List (List Char)
  | _, acc, [] => [acc.reverse]
  | 0, acc, l => [acc.reverse ++ l]
  | fuel + 1, acc, c :: t =>
    if sep.isPrefixOf (c :: t) then
      acc.reverse :: splitAux sep fuel [] ((c :: t).drop sep.length)
    else splitAux sep fuel (c :: acc) t

/-- Python `s.split(sep)`. -/
def pySplit (s sep : String) : List String :=
  (splitAux sep.data (s.data.length + 1) [] s.data).map String.mk

/-- Python `sep.join(l)`. -/
def pyJoin (sep : String) : List String → String
  | [] => ""
  | [x] => x
  | x :: y :: ys => x ++ sep ++ pyJoin sep (y :: ys)

/-- One bound of a Python slice `l[a:b]`: negative indices count from the
end, then the bound is clamped to `[0, n]`. -/
def sliceBound (n : Nat) (i : Int) : Nat :=
  if i < 0 then (i + n).toNat else min i.toNat n

/-- Python list slicing `l[a:b]` (with step 1). -/
def pySlice {α : Type} (l : List α) (a b : Int) : List α :=
  (l.take (sliceBound l.length b)).drop (sliceBound l.length a)

theorem sliceBound_ofNat (n k : Nat) : sliceBound n (k : Int) = min k n := by
  simp [sliceBound]

theorem pySlice_length_nat (l : List α) (a b : Nat) :
    (pySlice l (a : Int) (b : Int)).length = min b l.length - min a l.length := by
  simp only [pySlice, sliceBound_ofNat, List.length_drop, List.length_take]
  omega

/-! ## A small backtracking regular-expression engine

Embeds the fragment of Python `re` used by `run_pipeline.py`.  Candidate
matches are produced in Python's backtracking preference order: alternation
prefers its left branch, greedy `*` prefers more repetitions, lazy `*?`
prefers fewer; `reFindall` then takes leftmost non-overlapping matches.
Every capture group in the source patterns spans the whole pattern, so
`findall` returning group 1 coincides with returning the whole match and
groups need not be modelled. -/

/-- The character classes appearing in the source patterns. -/
inductive CharCls where
  | digit       -- \d
  | space       -- \s
  | alpha       -- [A-Za-z]
  | upper       -- [A-Z]
  | lower       -- [a-z]
  | alphaSpace  -- [A-Za-z\s]
  | digitComma  -- [\d,]
  | dashSpace   -- [- ]
  | slashDash   -- [/-]
  | dot         -- . (anything but a newline)
  deriving Repr, DecidableEq

/-- Does `c` belong to the class?  `ci` is `re.IGNORECASE`, under which the
letter ranges `[A-Z]`/`[a-z]` match letters of either case. -/
def CharCls.test (ci : Bool) : CharCls → Char → Bool
  | .digit, c => c.isDigit
  | .space, c => isSpaceChar c
  | .alpha, c => c.isAlpha
  | .upper, c => if ci then c.isAlpha else c.isUpper
  | .lower, c => if ci then c.isAlpha else c.isLower
  | .alphaSpace, c => c.isAlpha || isSpaceChar c
  | .digitComma, c => c.isDigit || c = ','
  | .dashSpace, c => c = '-' || c = ' '
  | .slashDash, c => c = '/' || c = '-'
  | .dot, c => c != '\n'

/-- Regular expressions over the constructs the source patterns use. -/
inductive RE where
  | eps
  | lit (c : Char)
  | cls (k : CharCls)
  | seq (a b : RE)
  | alt (a b : RE)
  | star (r : RE)   -- greedy r*
  | starL (r : RE)  -- lazy r*?
  | wb              -- \b
  deriving Repr

/-- The character just before the current position after consuming `c`
(for word-boundary tests). -/
def lastOpt (prev : Option Char) (c : List Char) : Option Char :=
  match c.getLast? with
  | some ch => some ch
  | none => prev

/-- All candidate matches of `r` at the head of `s`, as (consumed, rest)
pairs in backtracking preference order.  `prev` is the character before the
current position (`none` at the start of the subject).  The recursion is
structural on `fuel`, which every call decrements; with enough fuel (every
starred subpattern of the source consumes at least one character per
iteration, and the patterns are of bounded size) the exploration is the
full backtracking tree. -/
def reMatch (ci : Bool) : Nat → RE → Option Char → List Char → List (List Char × List Char)
  | 0, _, _, _ => []
  | fuel + 1, r, prev, s =>
    match r with
    | .eps => [([], s)]
    | .lit c =>
      match s with
      | [] => []
      | ch :: t => if (if ci then ch.toLower = c.toLower else ch = c) then [([ch], t)] else []
    | .cls k =>
      match s with
      | [] => []
      | ch :: t => if k.test ci ch then [([ch], t)] else []
    | .wb =>
      let before := match prev with | none => false | some c => isWordChar c
      let after := match s with | [] => false | ch :: _ => isWordChar ch
      if before ≠ after then [([], s)] else []
    | .seq a b =>
      (reMatch ci fuel a prev s).flatMap (fun p =>
        (reMatch ci fuel b (lastOpt prev p.1) p.2).map (fun q => (p.1 ++ q.1, q.2)))
    | .alt a b => reMatch ci fuel a prev s ++ reMatch ci fuel b prev s
    | .star r =>
      ((reMatch ci fuel r prev s).filter (fun p => !p.1.isEmpty)).flatMap (fun p =>
        (reMatch ci fuel (.star r) (lastOpt prev p.1) p.2).map (fun q => (p.1 ++ q.1, q.2)))
      ++ [([], s)]
    | .starL r =>
      [([], s)] ++
      ((reMatch ci fuel r prev s).filter (fun p => !p.1.isEmpty)).flatMap (fun p =>
        (reMatch ci fuel (.starL r) (lastOpt prev p.1) p.2).map (fun q => (p.1 ++ q.1, q.2)))

/-- The match Python commits to at this position, if any. -/
def reFirst (ci : Bool) (r : RE) (prev : Option Char) (s : List Char) :
    Option (List Char × List Char) :=
  (reMatch ci ((s.length + 1) * 100) r prev s).head?

/-- Leftmost non-overlapping matches, scanning left to right
(`re.findall`); an empty match advances the scan by one character. -/
def findallAux (ci : Bool) (r : RE) : Nat → Option Char → List Char → List (List Char)
  | 0, _, _ => []
  | fuel + 1, prev, s =>
    match reFirst ci r prev s with
    | some (c, rest) =>
        if c.isEmpty then
          match s with
          | [] => [c]
          | ch :: t => c :: findallAux ci r fuel (some ch) t
        else c :: findallAux ci r fuel (lastOpt prev c) rest
    | none =>
        match s with
        | [] => []
        | ch :: t => findallAux ci r fuel (some ch) t

/-- Python `re.findall(pattern, s, flags)` for the patterns in scope. -/
def reFindall (ci : Bool) (r : RE) (s : String) : List String :=
  (findallAux ci r (s.data.length + 1) none s.data).map String.mk

/-! ### Pattern-building helpers (hand compilation of the regex literals) -/

/-- Sequencing a list of regexes. -/
def cat (l : List RE) : RE := l.foldr .seq .eps

/-- A literal string. -/
def litstr (s : String) : RE := cat (s.data.map .lit)

/-- Alternation, preferring earlier entries (Python `a|b|...`). -/
def alts : List RE → RE
  | [] => .eps
  | [r] => r
  | r :: rest => .alt r (alts rest)

/-- `r+`. -/
def rplus (r : RE) : RE := .seq r (.star r)

/-- `r?`. -/
def ropt (r : RE) : RE := .alt r .eps

/-- `r{n}`. -/
def rep (r : RE) (n : Nat) : RE := cat (List.replicate n r)

/-- Greedy `r{lo,hi}`: tries `hi` copies first, down to `lo`. -/
def repRange (r : RE) (lo hi : Nat) : RE :=
  alts ((List.range (hi + 1 - lo)).map (fun i => rep r (hi - i)))

/-- `r{n,}`. -/
def repAtLeast (r : RE) (n : Nat) : RE := .seq (rep r n) (.star r)

/-! ## Answer synthesizer (`run_pipeline.py`)

Python exceptions are modelled with `Except String`; in particular the
extractors that evaluate `', '.join(set(xs)[:5])` raise `TypeError` whenever
`xs` is non-empty, because a `set` cannot be sliced. -/

/-- The message of the `TypeError` raised by slicing a `set`, as `str(e)`
renders it at the orchestrator boundary. -/
def typeErrorSetSlice : String := "'set' object is not subscriptable"

/-- First-occurrence-order deduplication (Python `list(dict.fromkeys(xs))`). -/
def dedupFirst (l : List String) : List String :=
  go l []
where
  go : List String → List String → List String
    | [], _ => []
    | x :: xs, seen => if seen.contains x then go xs seen else x :: go xs (x :: seen)

/-- Model of Python `list(set(xs))`.  CPython's set iteration order is
implementation-defined (hash/insertion dependent); the embedding fixes
first-occurrence order.  No claim depends on this order: the only surviving
use is in the coverage extractor, whose output text no theorem inspects. -/
def pySetList (l : List String) : List String := dedupFirst l

/-- Stable insertion into a list sorted by descending count. -/
def insertDesc (x : String × Nat) : List (String × Nat) → List (String × Nat)
  | [] => [x]
  | y :: ys => if y.2 ≤ x.2 then x :: y :: ys else y :: insertDesc x ys

/-- Stable sort by descending count: `Counter.most_common` orders by count,
ties in first-insertion order. -/
def sortDescStable (l : List (String × Nat)) : List (String × Nat) := l.foldr insertDesc []

/-- `r'([A-Z][A-Za-z\s]+Policy)'` and its three siblings. -/
def title_patterns : List RE := [
  cat [.cls .upper, rplus (.cls .alphaSpace), litstr "Policy"],
  cat [.cls .upper, rplus (.cls .alphaSpace), litstr "Agreement"],
  cat [.cls .upper, rplus (.cls .alphaSpace), litstr "Contract"],
  cat [.cls .upper, rplus (.cls .alphaSpace), litstr "Plan"]]

/-- The two company patterns of `extract_entities_and_roles`. -/
def company_patterns : List RE := [
  cat [.cls .upper, rplus (.cls .alphaSpace),
    alts [litstr "Company", litstr "Corp", litstr "Corporation", litstr "Ltd",
      litstr "Limited", litstr "Inc", litstr "Insurance"]],
  cat [.cls .upper, rplus (.cls .alphaSpace),
    alts [litstr "Bank", litstr "Agency", litstr "Organization"]]]

/-- The three person/role patterns of `extract_entities_and_roles`. -/
def role_patterns : List RE := [
  alts [litstr "Proposer", litstr "Insured",
    cat [litstr "Policy", ropt (.cls .dashSpace), litstr "holder"], litstr "Beneficiary"],
  cat [.cls .upper, rplus (.cls .lower), .cls .space, .cls .upper, rplus (.cls .lower)],
  alts [litstr "Medical Practitioner", litstr "Doctor", litstr "Physician"]]

/-- The four date patterns of `extract_dates_and_periods`. -/
def date_patterns : List RE := [
  cat [.wb, repRange (.cls .digit) 1 2, .cls .slashDash, repRange (.cls .digit) 1 2,
    .cls .slashDash, repRange (.cls .digit) 2 4, .wb],
  cat [.wb, rep (.cls .digit) 4, .cls .slashDash, repRange (.cls .digit) 1 2,
    .cls .slashDash, repRange (.cls .digit) 1 2, .wb],
  cat [.wb, rplus (.cls .alpha), .lit ' ', repRange (.cls .digit) 1 2, .lit ',',
    .lit ' ', rep (.cls .digit) 4, .wb],
  cat [.wb, repRange (.cls .digit) 1 2, .lit ' ', rplus (.cls .alpha), .lit ' ',
    rep (.cls .digit) 4, .wb]]

/-- The five period patterns of `extract_dates_and_periods`. -/
def period_patterns : List RE := [
  cat [rplus (.cls .digit), .star (.cls .space),
    alts [cat [litstr "day", ropt (.lit 's')], cat [litstr "month", ropt (.lit 's')],
      cat [litstr "year", ropt (.lit 's')]]],
  alts [litstr "Policy Period", litstr "Policy Year"],
  alts [litstr "grace period", litstr "waiting period"],
  alts [litstr "forty five days", litstr "45 days"],
  alts [litstr "annual", litstr "yearly", litstr "monthly", litstr "daily"]]

/-- The five amount patterns of `extract_financial_information`. -/
def amount_patterns : List RE := [
  cat [.lit '₹', .star (.cls .space), rplus (.cls .digitComma),
    ropt (cat [.lit '.', rplus (.cls .digit)])],
  cat [.lit '$', .star (.cls .space), rplus (.cls .digitComma),
    ropt (cat [.lit '.', rplus (.cls .digit)])],
  cat [alts [cat [.lit 'R', .lit 's', ropt (.lit '.')], litstr "INR"],
    .star (.cls .space), rplus (.cls .digitComma), ropt (cat [.lit '.', rplus (.cls .digit)])],
  cat [litstr "premium", .starL (.cls .dot), .lit '₹', .star (.cls .space),
    rplus (.cls .digitComma)],
  cat [litstr "sum insured", .starL (.cls .dot), .lit '₹', .star (.cls .space),
    rplus (.cls .digitComma)]]

/-- The six coverage patterns of `extract_coverage_information`. -/
def coverage_patterns : List RE := [
  alts [litstr "hospitalisation", litstr "hospitalization"],
  alts [litstr "in-patient care", litstr "out-patient care"],
  alts [litstr "day care treatment", litstr "domiciliary"],
  alts [litstr "AYUSH treatment", litstr "ayurveda", litstr "homeopathy"],
  alts [litstr "medical advice", litstr "medical practitioner"],
  alts [litstr "illness", litstr "disease", litstr "injury", litstr "accident"]]

/-- The four exclusion patterns of `extract_exclusions`. -/
def exclusion_patterns : List RE := [
  alts [litstr "not covered", litstr "excluded", litstr "limitation", litstr "restriction"],
  cat [litstr "subject to", .starL (.cls .dot), litstr "exclusions"],
  alts [litstr "does not include", litstr "shall not"],
  alts [litstr "except", litstr "excluding", litstr "other than"]]

/-- `r'\b[A-Za-z]{3,}\b'` of `extract_main_topics`. -/
def word_pattern : RE := cat [.wb, repAtLeast (.cls .alpha) 3, .wb]

/-- The stop-word set of `extract_main_topics`. -/
def stop_words : List String :=
  ["the", "and", "or", "but", "in", "on", "at", "to", "for", "of", "with", "by",
   "a", "an", "is", "are", "was", "were", "be", "been", "have", "has", "had",
   "do", "does", "did", "will", "would", "could", "should", "may", "might",
   "must", "shall", "can", "this", "that", "these", "those", "such", "any",
   "all", "each", "every", "some", "many", "much", "more", "most", "other",
   "another", "same", "different", "new", "old", "first", "last", "good",
   "great", "small", "large", "big", "little", "long", "short", "high", "low",
   "right", "left", "next", "previous", "following", "above", "below", "here",
   "there", "where", "when", "why", "how", "what", "who", "which", "whose", "whom"]

/-- `extract_main_topics`: keyword frequency over `\b[A-Za-z]{3,}\b` words,
stop words removed, `most_common(10)` filtered to frequency `> 1`, first 5. -/
def extract_main_topics (context : String) : List String :=
  let words := reFindall false word_pattern (pyLower context)
  let filtered := words.filter (fun w => !stop_words.contains w)
  let word_freq := (dedupFirst filtered).map (fun w => (w, filtered.count w))
  let common_words := ((sortDescStable word_freq).take 10).filter (fun p => 1 < p.2)
  (common_words.map (·.1)).take 5

/-- The `doc_type_indicators` table of `analyze_document_content`. -/
def doc_type_indicators : List (String × List String) := [
  ("policy", ["policy", "insurance", "coverage", "premium", "claim"]),
  ("medical", ["medical", "health", "hospital", "treatment", "illness"]),
  ("legal", ["agreement", "contract", "terms", "conditions", "obligations"]),
  ("financial", ["payment", "cost", "amount", "fee", "charges"])]

/-- `analyze_document_content` (the general/what extractor; its
`full_document` parameter is unused in the source too). -/
def analyze_document_content (context : String) (_full_document : Option String) : String :=
  let context_lower := pyLower context
  let doc_types := (doc_type_indicators.filter
    (fun p => 2 ≤ p.2.countP (fun k => strContains context_lower k))).map (·.1)
  let key_info := title_patterns.flatMap (fun p => (reFindall false p context).take 3)
  let answer :=
    if key_info ≠ [] then "This document is a " ++ pyJoin ", " key_info ++ "."
    else if doc_types ≠ [] then
      "This appears to be a " ++ pyJoin " and " doc_types ++ " document."
    else "This document contains"
  let main_topics := extract_main_topics context
  if main_topics ≠ [] then
    answer ++ " It covers topics including: " ++
      pyJoin ", " (main_topics.take 5) ++ "."
  else answer

/-- `extract_entities_and_roles`. -/
def extract_entities_and_roles (context : String) : String :=
  let entities := (company_patterns ++ role_patterns).flatMap (fun p =>
    ((reFindall true p context).map (fun m => pyStrip m)).filter (fun m => 2 < m.length))
  let unique_entities := (dedupFirst entities).take 10
  if unique_entities ≠ [] then
    "Key entities mentioned: " ++ pyJoin ", " unique_entities
  else
    "No specific entities or responsible parties clearly identified in the available context."

/-- `extract_dates_and_periods`.  When either match list is non-empty the
source builds an f-string containing `', '.join(set(...)[:5])`, which raises
`TypeError` (a `set` is not subscriptable); only the no-match branch returns. -/
def extract_dates_and_periods (context : String) : Except String String :=
  let dates := date_patterns.flatMap (fun p => reFindall false p context)
  let periods := period_patterns.flatMap (fun p => reFindall true p context)
  if dates ≠ [] then .error typeErrorSetSlice
  else if periods ≠ [] then .error typeErrorSetSlice
  else .ok "No specific dates or time periods clearly identified in the available context."

/-- The `financial_terms` vocabulary. -/
def financial_terms : List String :=
  ["premium", "deductible", "co-payment", "sum insured", "coverage limit",
   "floater sum", "charges"]

/-- `extract_financial_information`.  A non-empty amount list hits
`', '.join(set(financial_info)[:5])` and raises `TypeError`; the terms-only
branch slices a list (`found_terms[:5]`) and succeeds. -/
def extract_financial_information (context : String) : Except String String :=
  let financial_info := amount_patterns.flatMap (fun p => reFindall true p context)
  let found_terms := financial_terms.filter (fun t => strContains (pyLower context) t)
  if financial_info ≠ [] then .error typeErrorSetSlice
  else if found_terms ≠ [] then
    .ok ("Financial terms: " ++ pyJoin ", " (found_terms.take 5))
  else .ok "No specific financial information clearly identified in the available context."

/-- The `benefit_keywords` vocabulary. -/
def benefit_keywords : List String :=
  ["indemnify", "coverage", "benefits", "treatment", "medical expenses",
   "reasonable charges", "customary charges"]

/-- `extract_coverage_information` (its `list(set(...))` is wrapped in a
`list` before slicing, so this extractor does not raise). -/
def extract_coverage_information (context : String) : String :=
  let coverage_items := coverage_patterns.flatMap (fun p => reFindall true p context)
  let found_benefits := benefit_keywords.filter (fun k => strContains (pyLower context) k)
  if coverage_items ≠ [] ∨ found_benefits ≠ [] then
    let all_items := pySetList (coverage_items ++ found_benefits)
    "Coverage includes: " ++ pyJoin ", " (all_items.take 8)
  else "Coverage details not clearly specified in the available context."

/-- `extract_exclusions`: a non-empty match list hits `set(exclusions)[:5]`
and raises `TypeError`. -/
def extract_exclusions (context : String) : Except String String :=
  let exclusions := exclusion_patterns.flatMap (fun p => reFindall true p context)
  if exclusions ≠ [] then .error typeErrorSetSlice
  else .ok "No specific exclusions clearly identified in the available context."

instance {α β : Type} [DecidableEq α] [DecidableEq β] : DecidableEq (Except α β) := fun x y =>
  match x, y with
  | .ok a, .ok b =>
    match decEq a b with
    | isTrue h => isTrue (by rw [h])
    | isFalse h => isFalse (by intro hc; cases hc; exact h rfl)
  | .error a, .error b =>
    match decEq a b with
    | isTrue h => isTrue (by rw [h])
    | isFalse h => isFalse (by intro hc; cases hc; exact h rfl)
  | .ok _, .error _ => isFalse (by intro hc; cases hc)
  | .error _, .ok _ => isFalse (by intro hc; cases hc)

/-- A retrieved match as the retriever returns it (`score`, `text`; the
`metadata` mapping is never read by synthesis and is omitted).  Python float
scores are modelled as rationals. -/
structure RMatch where
  score : ℚ
  text : String
  deriving Repr, DecidableEq

/-- The six intent categories of `generate_improved_answer`. -/
inductive QCategory where
  | general | entity | temporal | financial | coverage | exclusion
  deriving Repr, DecidableEq

def generalKeywords : List String := ["what", "about", "describe", "explain"]

def entityKeywords : List String := ["who", "responsible", "person", "company", "organization"]

def temporalKeywords : List String := ["date", "when", "time", "period", "year"]

def financialKeywords : List String := ["how much", "amount", "cost", "price", "fee", "premium"]

def coverageKeywords : List String := ["coverage", "benefit", "include", "cover"]

def exclusionKeywords : List String := ["exclude", "not cover", "limitation", "restriction"]

/-- The ordered first-match keyword dispatch of `generate_improved_answer`
(the if/elif chain over `question.lower()`), as a category classifier. -/
def classify (question : String) : Option QCategory :=
  let ql := pyLower question
  if generalKeywords.any (fun w => strContains ql w) then some .general
  else if entityKeywords.any (fun w => strContains ql w) then some .entity
  else if temporalKeywords.any (fun w => strContains ql w) then some .temporal
  else if financialKeywords.any (fun w => strContains ql w) then some .financial
  else if coverageKeywords.any (fun w => strContains ql w) then some .coverage
  else if exclusionKeywords.any (fun w => strContains ql w) then some .exclusion
  else none

def noRelevantMsg : String := "I couldn't find relevant information to answer this question."

def insufficientMsg : String :=
  "I couldn't find sufficiently relevant information to answer this question."

/-- The `context_texts` relevance filter of `generate_improved_answer`:
`retrieved_chunks[:5]`, kept when `chunk.get("text")` is truthy and
`chunk.get("score", 0) > 0.3`. -/
def relevantTexts (retrieved : List RMatch) : List String :=
  ((retrieved.take 5).filter (fun c => c.text ≠ "" && decide (mkRat 3 10 < c.score))).map
    (fun c => c.text)

/-- `generate_improved_answer`. -/
def generate_improved_answer (retrieved : List RMatch) (question : String)
    (full_document : Option String) : Except String String :=
  if retrieved = [] then .ok noRelevantMsg
  else
    let context_texts := relevantTexts retrieved
    if context_texts = [] then .ok insufficientMsg
    else
      let combined_context := pyJoin "\n\n" context_texts
      match classify question with
      | some .general => .ok (analyze_document_content combined_context full_document)
      | some .entity => .ok (extract_entities_and_roles combined_context)
      | some .temporal => extract_dates_and_periods combined_context
      | some .financial => extract_financial_information combined_context
      | some .coverage => .ok (extract_coverage_information combined_context)
      | some .exclusion => extract_exclusions combined_context
      | none => .ok ("Based on the document content: " ++ String.mk (combined_context.data.take 500) ++
          (if 500 < combined_context.length then "..." else ""))

/-! ## Prompt formatter (`formatter.py`) -/

/-- One numbered context block `[n] text`. -/
def mkBlock (n : Nat) (t : String) : String := "[" ++ natToDec n ++ "] " ++ t

/-- The `context_blocks` loop of `format_context_and_query`: `i` is the
0-based position in the input list (`enumerate`), blocks are labelled
`[i+1]` and chunks whose stripped text is empty are skipped. -/
def contextBlocksFrom : Nat → List RMatch → List String
  | _, [] => []
  | i, c :: cs =>
    if pyStrip c.text ≠ "" then
      mkBlock (i + 1) (pyStrip c.text) :: contextBlocksFrom (i + 1) cs
    else contextBlocksFrom (i + 1) cs

def noContextPlaceholder : String := "[No relevant context retrieved]"

/-- `format_context_and_query`. -/
def format_context_and_query (retrieved_chunks : List RMatch) (user_query : String) : String :=
  let context_blocks := contextBlocksFrom 0 retrieved_chunks
  let context_blocks := if context_blocks = [] then [noContextPlaceholder] else context_blocks
  let context_str := pyJoin "\n\n" context_blocks
  "You are an expert assistant. Use the following retrieved context to answer the user's question.\n    \nContext:\n"
    ++ context_str ++ "\n\nQuestion:\n" ++ user_query ++ "\n\nAnswer:"

/-! ## Chunker (`splitter.py`)

The tiktoken encoder is an external collaborator: it enters as an abstract
`encode : String → List Nat` / `decode : List Nat → String` pair.  The
`while start < len(tokens)` loop is fueled; `none` models a loop that does
not finish within the fuel (which, by `chunkLoop_none_of_no_advance`, is
every configuration with `chunk_overlap ≥ chunk_size` on non-empty input).
Python's unbounded `start` is an `Int`: `start += chunk_size - chunk_overlap`
can decrease it below zero when `chunk_overlap > chunk_size`. -/

structure ChunkMeta where
  source : String
  chunk_index : Nat
  start_token : Option Int
  end_token : Option Int
  token_count : Nat
  deriving Repr, DecidableEq

structure Chunk where
  id : String
  text : String
  metadata : ChunkMeta
  deriving Repr, DecidableEq

/-- `f"{source_filename}-chunk-{chunk_index}"`. -/
def mkChunkId (source : String) (i : Nat) : String := source ++ "-chunk-" ++ natToDec i

theorem mkChunkId_inj (source : String) {i j : Nat} :
    mkChunkId source i = mkChunkId source j → i = j := by
  intro h
  have hdata := congrArg String.data h
  simp only [mkChunkId, String.data_append, List.append_assoc] at hdata
  have h1 := List.append_cancel_left hdata
  have h2 := List.append_cancel_left h1
  exact natToDec_injective (String.ext h2)

/-- The `while start < len(tokens)` loop of `chunk_text`. -/
def chunkLoop (decode : List Nat → String) (tokens : List Nat)
    (chunk_size chunk_overlap : Nat) (source : String) :
    Nat → Int → Nat → Option (List Chunk)
  | 0, _, _ => none
  | fuel + 1, start, chunk_index =>
    if start < (tokens.length : Int) then
      if pyStrip (decode (pySlice tokens start (start + (chunk_size : Int)))) ≠ "" then
        (chunkLoop decode tokens chunk_size chunk_overlap source fuel
          (start + ((chunk_size : Int) - (chunk_overlap : Int))) (chunk_index + 1)).map
          (fun rest =>
            (⟨mkChunkId source chunk_index,
              pyStrip (decode (pySlice tokens start (start + (chunk_size : Int)))),
              ⟨source, chunk_index, some start, some (start + (chunk_size : Int)),
                (pySlice tokens start (start + (chunk_size : Int))).length⟩⟩ : Chunk) :: rest)
      else chunkLoop decode tokens chunk_size chunk_overlap source fuel
        (start + ((chunk_size : Int) - (chunk_overlap : Int))) chunk_index
    else some []

/-- `chunk_text` (basic token-window chunking). -/
def chunk_text (encode : String → List Nat) (decode : List Nat → String)
    (text : String) (chunk_size chunk_overlap : Nat) (source_filename : String) :
    Option (List Chunk) :=
  if pyStrip text = "" then some []
  else if (encode text).length = 0 then some []
  else chunkLoop decode (encode text) chunk_size chunk_overlap source_filename
    ((encode text).length + 1) 0 0

/-- Flushing `current_chunk` in `smart_chunk_text` (text is stripped, the
token count is of the unstripped buffer, no start/end tokens). -/
def flushChunk (encode : String → List Nat) (source : String) (cur : String)
    (idx : Nat) : Chunk :=
  ⟨mkChunkId source idx, pyStrip cur, ⟨source, idx, none, none, (encode cur).length⟩⟩

/-- The renumbering loop over `para_chunks`: each sub-chunk gets the running
`chunk_index` (id and metadata), other fields kept. -/
def renumber (source : String) : List Chunk → Nat → List Chunk
  | [], _ => []
  | c :: cs, b =>
    { c with id := mkChunkId source b,
             metadata := { c.metadata with chunk_index := b } } :: renumber source cs (b + 1)

/-- `test_chunk = current_chunk + "\n\n" + paragraph if current_chunk else
paragraph`. -/
def testChunk (cur p : String) : String := if cur ≠ "" then cur ++ "\n\n" ++ p else p

/-- The chunk flushed out of the buffer before starting a new one (empty
when the buffer is blank after stripping). -/
def flushedChunks (encode : String → List Nat) (source : String) (cur : String)
    (idx : Nat) : List Chunk :=
  if pyStrip cur ≠ "" then [flushChunk encode source cur idx] else []

/-- The `chunk_index` counter after the conditional flush. -/
def nextIdx (cur : String) (idx : Nat) : Nat :=
  if pyStrip cur ≠ "" then idx + 1 else idx

/-- The paragraph loop of `smart_chunk_text`, with the running buffer
`cur` and the next `chunk_index`. -/
def smartLoop (encode : String → List Nat) (decode : List Nat → String)
    (chunk_size chunk_overlap : Nat) (source : String) :
    List String → String → Nat → Option (List Chunk)
  | [], cur, idx =>
    if pyStrip cur ≠ "" then some [flushChunk encode source cur idx] else some []
  | para :: rest, cur, idx =>
    if pyStrip para = "" then
      smartLoop encode decode chunk_size chunk_overlap source rest cur idx
    else
      if (encode (testChunk cur (pyStrip para))).length ≤ chunk_size then
        smartLoop encode decode chunk_size chunk_overlap source rest
          (testChunk cur (pyStrip para)) idx
      else
        if (encode (pyStrip para)).length ≤ chunk_size then
          (smartLoop encode decode chunk_size chunk_overlap source rest (pyStrip para)
            (nextIdx cur idx)).map (fun tail => flushedChunks encode source cur idx ++ tail)
        else
          (chunk_text encode decode (pyStrip para) chunk_size chunk_overlap source).bind
            (fun para_chunks =>
              (smartLoop encode decode chunk_size chunk_overlap source rest ""
                (nextIdx cur idx + para_chunks.length)).map (fun tail =>
                  flushedChunks encode source cur idx ++
                    renumber source para_chunks (nextIdx cur idx) ++ tail))

/-- `smart_chunk_text` (paragraph-aware chunking). -/
def smart_chunk_text (encode : String → List Nat) (decode : List Nat → String)
    (text : String) (chunk_size chunk_overlap : Nat) (source_filename : String) :
    Option (List Chunk) :=
  if pyStrip text = "" then some []
  else smartLoop encode decode chunk_size chunk_overlap source_filename
    (pySplit text "\n\n") "" 0

/-! ## Pipeline orchestrator (`process_file`)

Collaborators enter as parameters: `extract` is the outcome of
`load_and_clean`, `embed` of `embed_and_store`, `retrieve` of
`retrieve_similar_chunks`.  Every Python exception inside the `try` block is
caught and turned into the failure dictionary; `none` is a run whose
chunking loop does not finish (impossible with the default 400/50
parameters). -/

structure PMeta where
  filename : String
  chunks_created : Nat
  questions_processed : Nat
  document_length : Nat
  deriving Repr, DecidableEq

inductive ProcessResult where
  | ok (answers : List String) (metadata : PMeta)
  | fail (error : String)
  deriving Repr, DecidableEq

/-- The `success` field of the returned dictionary. -/
def ProcessResult.success : ProcessResult → Bool
  | .ok _ _ => true
  | .fail _ => false

/-- The `answers` field (the failure dictionary carries `[]`). -/
def ProcessResult.answers : ProcessResult → List String
  | .ok a _ => a
  | .fail _ => []

/-- `metadata["questions_processed"]` of a success result. -/
def ProcessResult.questionsProcessed : ProcessResult → Nat
  | .ok _ m => m.questions_processed
  | .fail _ => 0

def defaultQuestion : String := "What is this document about?"

/-- The per-question loop of `process_file`: an empty retrieval degrades to
the fixed could-not-find answer, a synthesis exception propagates. -/
def answerLoop (retrieve : String → List RMatch) (document : String) :
    List String → Except String (List String)
  | [] => .ok []
  | q :: rest =>
    let results := retrieve q
    if results = [] then
      (answerLoop retrieve document rest).map (fun as => noRelevantMsg :: as)
    else
      match generate_improved_answer results q (some document) with
      | .error e => .error e
      | .ok a => (answerLoop retrieve document rest).map (fun as => a :: as)

/-- `process_file`. -/
def process_file (encode : String → List Nat) (decode : List Nat → String)
    (extract : Except String String) (embed : List Chunk → Except String Unit)
    (retrieve : String → List RMatch) (filename : String)
    (questions : Option (List String)) : Option ProcessResult :=
  match extract with
  | .error e => some (.fail e)
  | .ok document =>
    if pyStrip document = "" then
      some (.fail "No text could be extracted from the document")
    else
      match smart_chunk_text encode decode document 400 50 filename with
      | none => none
      | some chunks =>
        if chunks = [] then
          some (.fail "No chunks generated from document. Document might be too short or empty.")
        else
          match embed chunks with
          | .error e => some (.fail e)
          | .ok _ =>
            match answerLoop retrieve document (questions.getD [defaultQuestion]) with
            | .error e => some (.fail e)
            | .ok answers =>
              some (.ok answers ⟨filename, chunks.length,
                (questions.getD [defaultQuestion]).length, document.length⟩)

end HackRX

namespace HackRX

/-! ## Claim C3: questions containing "who" -/

/-- C3 (amended): a question whose lower-cased text contains "who" and none
of the general keywords ("what", "about", "describe", "explain") is routed
to the entity/role extraction path, ahead of the temporal, financial,
coverage and exclusion paths, whatever other keywords appear.  (The general
keywords are checked first in the source, so they beat "who".) -/
theorem classify_who_entity (question : String)
    (hwho : strContains (pyLower question) "who" = true)
    (hgen : ∀ w ∈ generalKeywords, strContains (pyLower question) w = false) :
    classify question = some QCategory.entity := by
  have h1 : generalKeywords.any (fun w => strContains (pyLower question) w) = false := by
    simp only [List.any_eq_false]
    intro w hw
    simp [hgen w hw]
  have h2 : entityKeywords.any (fun w => strContains (pyLower question) w) = true := by
    simp only [List.any_eq_true]
    exact ⟨"who", by simp [entityKeywords], hwho⟩
  simp only [classify, h1, h2]
  rfl

/-- Witness for `classify_who_entity` at the question "Who is responsible?". -/
theorem classify_who_entity_witness :
    classify "Who is responsible?" = some QCategory.entity :=
  classify_who_entity "Who is responsible?" (by decide)
    (by intro w hw; fin_cases hw <;> decide)

/-- C3 counterexample: "What about who is responsible?" contains "who", yet
the general/what path is chosen, not the entity path — the general keyword
test runs first in `generate_improved_answer`. -/
theorem classify_who_entity_counterexample :
    strContains (pyLower "What about who is responsible?") "who" = true ∧
      classify "What about who is responsible?" = some QCategory.general ∧
      some QCategory.general ≠ some QCategory.entity := by
  refine ⟨by decide, by decide, by decide⟩

end HackRX

namespace HackRX

/-! ## Claim C1: the set-slicing TypeError in the extractors -/

/-- C1 exhibit: the temporal, financial and exclusion extractors raise
`TypeError` (slicing `set(...)` with `[:5]`) whenever a pattern matches,
and only the no-match branches return their fixed sentences; routed through
`generate_improved_answer`, the exception escapes synthesis.  This
contradicts the spec sentence that synthesis never raises. -/
theorem extractors_raise_on_match :
    extract_financial_information "premium ₹5,000" = .error typeErrorSetSlice ∧
      extract_dates_and_periods "45 days" = .error typeErrorSetSlice ∧
      extract_exclusions "not covered items" = .error typeErrorSetSlice ∧
      generate_improved_answer [⟨mkRat 9 10, "premium ₹5,000"⟩]
        "How much is the premium?" none = .error typeErrorSetSlice ∧
      extract_dates_and_periods "nothing temporal here" =
        .ok "No specific dates or time periods clearly identified in the available context." ∧
      extract_financial_information "no money talk" =
        .ok "No specific financial information clearly identified in the available context." ∧
      extract_exclusions "plain text" =
        .ok "No specific exclusions clearly identified in the available context." := by
  refine ⟨by decide, by decide, by decide, by decide, by decide, by decide, by decide⟩

end HackRX

namespace HackRX

/-! ## Claim C9: termination of the chunking loop -/

theorem chunkLoop_isSome (decode : List Nat → String) (tokens : List Nat)
    (size overlap : Nat) (source : String) (hso : overlap < size) :
    ∀ fuel : Nat, ∀ start : Int, ∀ idx : Nat,
      (tokens.length : Int) - start < fuel → 0 < fuel →
      (chunkLoop decode tokens size overlap source fuel start idx).isSome = true := by
  intro fuel
  induction fuel with
  | zero => intro start idx _ h0; omega
  | succ f ih =>
    intro start idx hlt _
    rw [chunkLoop]
    by_cases hg : start < (tokens.length : Int)
    · simp only [hg, if_true]
      have hstep : (1 : Int) ≤ (size : Int) - (overlap : Int) := by
        have : (overlap : Int) < (size : Int) := by exact_mod_cast hso
        omega
      have hrec : (tokens.length : Int) - (start + ((size : Int) - (overlap : Int))) < f := by
        omega
      have hfpos : 0 < f := by omega
      split
      · have hrs := ih _ (idx + 1) hrec hfpos
        cases hc : chunkLoop decode tokens size overlap source f
            (start + ((size : Int) - (overlap : Int))) (idx + 1) with
        | none => rw [hc] at hrs; simp at hrs
        | some l => rfl
      · exact ih _ idx hrec hfpos
    · simp [hg]

theorem chunkLoop_none_of_no_advance (decode : List Nat → String) (tokens : List Nat)
    (size overlap : Nat) (source : String) (hso : size ≤ overlap)
    (hN : 0 < tokens.length) :
    ∀ fuel : Nat, ∀ start : Int, ∀ idx : Nat, start ≤ 0 →
      chunkLoop decode tokens size overlap source fuel start idx = none := by
  intro fuel
  induction fuel with
  | zero => intro start idx _; rw [chunkLoop]
  | succ f ih =>
    intro start idx hs
    have hg : start < (tokens.length : Int) := by
      have : (0 : Int) < (tokens.length : Int) := by exact_mod_cast hN
      omega
    rw [chunkLoop]
    simp only [hg, if_true]
    have hstep : (size : Int) - (overlap : Int) ≤ 0 := by
      have : (size : Int) ≤ (overlap : Int) := by exact_mod_cast hso
      omega
    have hs' : start + ((size : Int) - (overlap : Int)) ≤ 0 := by omega
    split
    · rw [ih _ (idx + 1) hs']
      rfl
    · exact ih _ idx hs'

/-- C9: with `chunk_overlap < chunk_size` the loop of `chunk_text` advances
by the positive step `chunk_size − chunk_overlap` each iteration and
finishes within its fuel (the result is `some _`); with
`chunk_overlap ≥ chunk_size` on non-empty input the loop never finishes, at
any fuel — the configuration error the caller must prevent. -/
theorem chunk_text_terminates (encode : String → List Nat) (decode : List Nat → String)
    (text : String) (size overlap : Nat) (source : String) :
    (overlap < size → (chunk_text encode decode text size overlap source).isSome = true) ∧
    (size ≤ overlap → (encode text).length ≠ 0 →
      ∀ fuel idx, chunkLoop decode (encode text) size overlap source fuel 0 idx = none) := by
  constructor
  · intro hso
    rw [chunk_text]
    split
    · rfl
    · split
      · rfl
      · apply chunkLoop_isSome _ _ _ _ _ hso
        · omega
        · omega
  · intro hso hN fuel idx
    exact chunkLoop_none_of_no_advance decode (encode text) size overlap source hso
      (by omega) fuel 0 idx (by omega)

/-- Witness for `chunk_text_terminates`: with 3 tokens, `chunk_size = 2`,
`chunk_overlap = 1` the chunker returns a result, while `chunk_size = 2 =
chunk_overlap` never finishes. -/
theorem chunk_text_terminates_witness :
    ((chunk_text (fun _ => [0, 1, 2]) (fun _ => "a") "x" 2 1 "doc").isSome = true) ∧
    (∀ fuel idx, chunkLoop (fun _ => "a") ((fun (_ : String) => [0, 1, 2]) "x") 2 2 "doc"
        fuel 0 idx = none) :=
  ⟨(chunk_text_terminates (fun _ => [0, 1, 2]) (fun _ => "a") "x" 2 1 "doc").1 (by decide),
   (chunk_text_terminates (fun _ => [0, 1, 2]) (fun _ => "a") "x" 2 2 "doc").2
     (by decide) (by decide)⟩

end HackRX

namespace HackRX

/-! ## Claim C5: contiguous chunk indices and distinct ids -/

theorem chunkLoop_map_index (decode : List Nat → String) (tokens : List Nat)
    (size overlap : Nat) (source : String) :
    ∀ fuel : Nat, ∀ start : Int, ∀ idx : Nat, ∀ L : List Chunk,
      chunkLoop decode tokens size overlap source fuel start idx = some L →
      L.map (fun c => c.metadata.chunk_index) = List.range' idx L.length ∧
      ∀ c ∈ L, c.id = mkChunkId source c.metadata.chunk_index := by
  intro fuel
  induction fuel with
  | zero => intro start idx L h; rw [chunkLoop] at h; exact absurd h (by simp)
  | succ f ih =>
    intro start idx L h
    rw [chunkLoop] at h
    by_cases hg : start < (tokens.length : Int)
    · simp only [hg, if_true] at h
      split at h
      · obtain ⟨rest, hrest, hL⟩ := Option.map_eq_some'.mp h
        obtain ⟨ihmap, ihid⟩ := ih _ (idx + 1) rest hrest
        subst hL
        constructor
        · simp only [List.map_cons, List.length_cons, ihmap, List.range'_succ]
        · intro c hc
          rcases List.mem_cons.mp hc with hhd | htl
          · subst hhd; rfl
          · exact ihid c htl
      · exact ih _ idx L h
    · simp only [hg, if_false, Option.some.injEq] at h
      subst h
      simp

theorem renumber_map_index (source : String) :
    ∀ (pcs : List Chunk) (b : Nat),
      (renumber source pcs b).map (fun c => c.metadata.chunk_index) =
        List.range' b pcs.length ∧
      (renumber source pcs b).length = pcs.length ∧
      ∀ c ∈ renumber source pcs b, c.id = mkChunkId source c.metadata.chunk_index := by
  intro pcs
  induction pcs with
  | nil => intro b; refine ⟨rfl, rfl, by intro c hc; cases hc⟩
  | cons p ps ih =>
    intro b
    obtain ⟨ihmap, ihlen, ihid⟩ := ih (b + 1)
    refine ⟨?_, by simp [renumber, ihlen], ?_⟩
    · simp only [renumber, List.map_cons, List.length_cons, ihmap, ihlen, List.range'_succ]
    · intro c hc
      rcases List.mem_cons.mp hc with hhd | htl
      · subst hhd; rfl
      · exact ihid c htl

theorem map_index_append {L1 L2 : List Chunk} {idx : Nat}
    (h1 : L1.map (fun c => c.metadata.chunk_index) = List.range' idx L1.length)
    (h2 : L2.map (fun c => c.metadata.chunk_index) = List.range' (idx + L1.length) L2.length) :
    (L1 ++ L2).map (fun c => c.metadata.chunk_index) = List.range' idx (L1 ++ L2).length := by
  have hr := List.range'_append idx L1.length L2.length 1
  simp only [one_mul] at hr
  rw [Nat.add_comm L2.length L1.length] at hr
  simp only [List.map_append, h1, h2, List.length_append]
  exact hr

theorem smartLoop_map_index (encode : String → List Nat) (decode : List Nat → String)
    (size overlap : Nat) (source : String) :
    ∀ (paras : List String) (cur : String) (idx : Nat) (L : List Chunk),
      smartLoop encode decode size overlap source paras cur idx = some L →
      L.map (fun c => c.metadata.chunk_index) = List.range' idx L.length ∧
      ∀ c ∈ L, c.id = mkChunkId source c.metadata.chunk_index := by
  intro paras
  induction paras with
  | nil =>
    intro cur idx L h
    rw [smartLoop] at h
    split at h
    · rw [Option.some.injEq] at h
      subst h
      exact ⟨rfl, by intro c hc; rcases List.mem_singleton.mp hc with rfl; rfl⟩
    · rw [Option.some.injEq] at h
      subst h
      exact ⟨rfl, by intro c hc; cases hc⟩
  | cons para rest ih =>
    intro cur idx L h
    rw [smartLoop] at h
    split at h
    · exact ih _ _ _ h
    · split at h
      · exact ih _ _ _ h
      · split at h
        · -- the paragraph itself fits: flush (maybe) and continue with it
          obtain ⟨tail, htail, hL⟩ := Option.map_eq_some'.mp h
          obtain ⟨ihmap, ihid⟩ := ih _ _ _ htail
          subst hL
          by_cases hflush : pyStrip cur = ""
          · have hfc : flushedChunks encode source cur idx = [] := by
              simp [flushedChunks, hflush]
            have hni : nextIdx cur idx = idx := by simp [nextIdx, hflush]
            rw [hni] at ihmap
            rw [hfc, List.nil_append]
            exact ⟨ihmap, ihid⟩
          · have hfc : flushedChunks encode source cur idx =
                [flushChunk encode source cur idx] := by simp [flushedChunks, hflush]
            have hni : nextIdx cur idx = idx + 1 := by simp [nextIdx, hflush]
            rw [hni] at ihmap
            rw [hfc]
            constructor
            · apply map_index_append
              · simp [flushChunk, List.range']
              · simpa using ihmap
            · intro c hc
              rcases List.mem_append.mp hc with hhd | htl
              · rcases List.mem_singleton.mp hhd with rfl; rfl
              · exact ihid c htl
        · -- the paragraph is split by chunk_text and renumbered
          obtain ⟨pcs, hpcs, hmap⟩ := Option.bind_eq_some.mp h
          obtain ⟨tail, htail, hL⟩ := Option.map_eq_some'.mp hmap
          obtain ⟨ihmap, ihid⟩ := ih _ _ _ htail
          obtain ⟨rmap, rlen, rid⟩ := renumber_map_index source pcs (nextIdx cur idx)
          subst hL
          have hmid : (renumber source pcs (nextIdx cur idx) ++ tail).map
              (fun c => c.metadata.chunk_index) =
              List.range' (nextIdx cur idx)
                (renumber source pcs (nextIdx cur idx) ++ tail).length := by
            apply map_index_append
            · rw [rlen]; exact rmap
            · rw [rlen]; exact ihmap
          have hmidid : ∀ c ∈ renumber source pcs (nextIdx cur idx) ++ tail,
              c.id = mkChunkId source c.metadata.chunk_index := by
            intro c hc
            rcases List.mem_append.mp hc with hren | htl
            · exact rid c hren
            · exact ihid c htl
          by_cases hflush : pyStrip cur = ""
          · have hfc : flushedChunks encode source cur idx = [] := by
              simp [flushedChunks, hflush]
            have hni : nextIdx cur idx = idx := by simp [nextIdx, hflush]
            rw [hni] at hmid hmidid
            rw [hfc, hni, List.nil_append]
            exact ⟨hmid, hmidid⟩
          · have hfc : flushedChunks encode source cur idx =
                [flushChunk encode source cur idx] := by simp [flushedChunks, hflush]
            have hni : nextIdx cur idx = idx + 1 := by simp [nextIdx, hflush]
            rw [hni] at hmid hmidid
            rw [hfc, hni, List.append_assoc]
            constructor
            · apply map_index_append
              · simp [flushChunk, List.range']
              · simpa using hmid
            · intro c hc
              rcases List.mem_append.mp hc with hhd | htl
              · rcases List.mem_singleton.mp hhd with rfl; rfl
              · exact hmidid c htl

end HackRX

namespace HackRX

theorem ids_nodup_of_index (source : String) (L : List Chunk)
    (hmap : L.map (fun c => c.metadata.chunk_index) = List.range L.length)
    (hid : ∀ c ∈ L, c.id = mkChunkId source c.metadata.chunk_index) :
    (L.map (fun c => c.id)).Nodup := by
  have hrw : L.map (fun c => c.id) =
      (L.map (fun c => c.metadata.chunk_index)).map (mkChunkId source) := by
    rw [List.map_map]
    exact List.map_congr_left (fun c hc => hid c hc)
  rw [hrw, hmap]
  exact (List.nodup_range L.length).map (fun i j hij => mkChunkId_inj source hij)

/-- C5: both `chunk_text` and `smart_chunk_text` emit chunks whose
`metadata.chunk_index` values are exactly `0, 1, …, len−1` in emission
order, and whose ids `"{source}-chunk-{chunk_index}"` are pairwise
distinct, however many empty-after-strip windows were dropped. -/
theorem chunk_ids_contiguous (encode : String → List Nat) (decode : List Nat → String)
    (text : String) (size overlap : Nat) (source : String) :
    (∀ L, chunk_text encode decode text size overlap source = some L →
        L.map (fun c => c.metadata.chunk_index) = List.range L.length ∧
        (L.map (fun c => c.id)).Nodup) ∧
    (∀ L, smart_chunk_text encode decode text size overlap source = some L →
        L.map (fun c => c.metadata.chunk_index) = List.range L.length ∧
        (L.map (fun c => c.id)).Nodup) := by
  constructor
  · intro L h
    rw [chunk_text] at h
    split at h
    · rw [Option.some.injEq] at h
      subst h
      exact ⟨rfl, List.nodup_nil⟩
    · split at h
      · rw [Option.some.injEq] at h
        subst h
        exact ⟨rfl, List.nodup_nil⟩
      · obtain ⟨hmap, hid⟩ := chunkLoop_map_index decode (encode text) size overlap source
          _ 0 0 L h
        rw [← List.range_eq_range'] at hmap
        exact ⟨hmap, ids_nodup_of_index source L hmap hid⟩
  · intro L h
    rw [smart_chunk_text] at h
    split at h
    · rw [Option.some.injEq] at h
      subst h
      exact ⟨rfl, List.nodup_nil⟩
    · obtain ⟨hmap, hid⟩ := smartLoop_map_index encode decode size overlap source
        _ _ 0 L h
      rw [← List.range_eq_range'] at hmap
      exact ⟨hmap, ids_nodup_of_index source L hmap hid⟩

/-- The two chunks of the basic-chunking witness run (its middle window
decodes to whitespace and is dropped). -/
def c5WitnessBasic : List Chunk :=
  [⟨"doc-chunk-0", "a", ⟨"doc", 0, some 0, some 1, 1⟩⟩,
   ⟨"doc-chunk-1", "a", ⟨"doc", 1, some 2, some 3, 1⟩⟩]

/-- The single chunk of the smart-chunking witness run. -/
def c5WitnessSmart : List Chunk := [⟨"doc-chunk-0", "A\n\nB", ⟨"doc", 0, none, none, 4⟩⟩]

/-- Witness for `chunk_ids_contiguous` at concrete runs of both chunkers. -/
theorem chunk_ids_contiguous_witness :
    chunk_text (fun _ => [0, 1, 2]) (fun w => if w = [1] then " " else "a") "x" 1 0 "doc"
      = some c5WitnessBasic ∧
    c5WitnessBasic.map (fun c => c.metadata.chunk_index) = List.range c5WitnessBasic.length ∧
    (c5WitnessBasic.map (fun c => c.id)).Nodup ∧
    smart_chunk_text (fun s => List.replicate s.length 0) (fun _ => "a") "A\n\nB" 400 50 "doc"
      = some c5WitnessSmart ∧
    c5WitnessSmart.map (fun c => c.metadata.chunk_index) = List.range c5WitnessSmart.length ∧
    (c5WitnessSmart.map (fun c => c.id)).Nodup := by
  have hb : chunk_text (fun _ => [0, 1, 2]) (fun w => if w = [1] then " " else "a")
      "x" 1 0 "doc" = some c5WitnessBasic := by decide
  have hs : smart_chunk_text (fun s => List.replicate s.length 0) (fun _ => "a")
      "A\n\nB" 400 50 "doc" = some c5WitnessSmart := by decide
  obtain ⟨h1, h2⟩ := (chunk_ids_contiguous _ _ _ _ _ _).1 _ hb
  obtain ⟨h3, h4⟩ := (chunk_ids_contiguous _ _ _ _ _ _).2 _ hs
  exact ⟨hb, h1, h2, hs, h3, h4⟩

end HackRX

namespace HackRX

/-! ## Claim C2: the premium-amount end-to-end scenario -/

/-- C2 (amended): the question "What is the premium amount?" contains the
general keyword "what", which is tested first, so synthesis with the
context "premium ₹5,000" (score 0.9, passing the relevance filter) is
routed to the general document-content analyzer and returns its composed
sentence — the financial extractor is never invoked. -/
theorem premium_question_routed_general :
    classify "What is the premium amount?" = some QCategory.general ∧
    generate_improved_answer [⟨mkRat 9 10, "premium ₹5,000"⟩]
        "What is the premium amount?" none =
      .ok (analyze_document_content "premium ₹5,000" none) ∧
    analyze_document_content "premium ₹5,000" none = "This document contains" := by
  refine ⟨by decide, by decide, by decide⟩

/-- C2 counterexample: on that very input the answer is the general
analyzer's "This document contains", not a financial report — it differs
from the financial extractor's output and mentions neither "₹5,000" nor
"premium". -/
theorem premium_question_counterexample :
    generate_improved_answer [⟨mkRat 9 10, "premium ₹5,000"⟩]
        "What is the premium amount?" none = .ok "This document contains" ∧
    generate_improved_answer [⟨mkRat 9 10, "premium ₹5,000"⟩]
        "What is the premium amount?" none ≠
      extract_financial_information "premium ₹5,000" ∧
    strContains "This document contains" "5,000" = false ∧
    strContains "This document contains" "premium" = false := by
  refine ⟨by decide, by decide, by decide, by decide⟩

end HackRX

namespace HackRX

/-! ## Claim C7: the relevance filter -/

/-- C7 (amended): the working context is drawn from at most the first 5
retrieved matches, each with score above 0.30 and non-empty text; and for a
non-empty retrieved list in which every match scores at most 0.30,
synthesis returns the fixed insufficient-relevance message verbatim.  (The
empty retrieved list is answered by the distinct could-not-find message
before the filter runs.) -/
theorem relevance_filter (retrieved : List RMatch) (question : String)
    (d : Option String) :
    (relevantTexts retrieved).length ≤ 5 ∧
    (∀ t ∈ relevantTexts retrieved, ∃ m ∈ retrieved.take 5,
        mkRat 3 10 < m.score ∧ m.text ≠ "" ∧ t = m.text) ∧
    (retrieved ≠ [] → (∀ m ∈ retrieved, m.score ≤ mkRat 3 10) →
      generate_improved_answer retrieved question d = .ok insufficientMsg) := by
  refine ⟨?_, ?_, ?_⟩
  · calc (relevantTexts retrieved).length
        ≤ (retrieved.take 5).length := by
          rw [relevantTexts, List.length_map]
          exact List.length_filter_le _ _
      _ ≤ 5 := by
          rw [List.length_take]
          omega
  · intro t ht
    rw [relevantTexts] at ht
    obtain ⟨m, hm, hmt⟩ := List.mem_map.mp ht
    obtain ⟨hmem, hpred⟩ := List.mem_filter.mp hm
    simp only [Bool.and_eq_true, decide_eq_true_eq, ne_eq] at hpred
    exact ⟨m, hmem, hpred.2, hpred.1, hmt.symm⟩
  · intro hne hle
    have hrel : relevantTexts retrieved = [] := by
      rw [relevantTexts, List.map_eq_nil_iff]
      rw [List.filter_eq_nil_iff]
      intro m hm
      have := hle m (List.take_subset 5 retrieved hm)
      simp [this, not_lt.mpr this]
    simp [generate_improved_answer, hne, hrel, insufficientMsg]

/-- Witness for `relevance_filter` at a one-match list scoring 0.1. -/
theorem relevance_filter_witness :
    (relevantTexts [⟨mkRat 1 10, "some text"⟩]).length ≤ 5 ∧
    generate_improved_answer [⟨mkRat 1 10, "some text"⟩] "any question" none =
      .ok insufficientMsg :=
  ⟨(relevance_filter [⟨mkRat 1 10, "some text"⟩] "any question" none).1,
   (relevance_filter [⟨mkRat 1 10, "some text"⟩] "any question" none).2.2
     (by decide) (by decide)⟩

/-- C7 counterexample: for the empty retrieved list — where vacuously every
match scores at most 0.30 — synthesis returns the could-not-find message,
not the insufficient-relevance message. -/
theorem relevance_filter_counterexample :
    generate_improved_answer [] "any question" none = .ok noRelevantMsg ∧
    noRelevantMsg ≠ insufficientMsg := by
  refine ⟨by decide, by decide⟩

end HackRX

namespace HackRX

/-! ## Claim C8: the prompt formatter's numbering -/

theorem listContains_append_left (hay z needle : List Char) :
    listContains hay needle = true → listContains (hay ++ z) needle = true := by
  induction hay with
  | nil =>
    intro h
    rw [listContains] at h
    cases needle with
    | nil => exact listContains_of_isPrefixOf _ _ (by simp [List.isPrefixOf_iff_prefix])
    | cons n ns => simp [List.isPrefixOf] at h
  | cons c t ih =>
    intro h
    rw [listContains] at h
    rw [Bool.or_eq_true] at h
    rcases h with hp | hrec
    · apply listContains_of_isPrefixOf
      rw [List.isPrefixOf_iff_prefix] at hp ⊢
      exact hp.trans (List.prefix_append (c :: t) z)
    · rw [List.cons_append, listContains]
      simp [ih hrec]

theorem listContains_pyJoin (sep : String) (l : List String) (b : String) (hb : b ∈ l) :
    listContains (pyJoin sep l).data b.data = true := by
  induction l with
  | nil => cases hb
  | cons x xs ih =>
    cases xs with
    | nil =>
      rcases List.mem_singleton.mp hb with rfl
      have := listContains_self_append b.data []
      simpa using this
    | cons y ys =>
      rcases List.mem_cons.mp hb with rfl | htl
      · rw [pyJoin]
        simp only [String.data_append]
        rw [List.append_assoc]
        have := listContains_self_append b.data (sep.data ++ (pyJoin sep (y :: ys)).data)
        exact this
      · rw [pyJoin]
        simp only [String.data_append]
        exact listContains_append_right _ _ _ (ih htl)

theorem contextBlocksFrom_mem (cs : List RMatch) :
    ∀ (j i : Nat) (c : RMatch), cs.get? i = some c → pyStrip c.text ≠ "" →
      mkBlock (j + i + 1) (pyStrip c.text) ∈ contextBlocksFrom j cs := by
  induction cs with
  | nil => intro j i c h; simp at h
  | cons c0 rest ih =>
    intro j i c h hne
    cases i with
    | zero =>
      rw [List.get?_cons_zero, Option.some.injEq] at h
      subst h
      rw [contextBlocksFrom, if_pos hne]
      exact List.mem_cons_self _ _
    | succ i' =>
      rw [List.get?_cons_succ] at h
      have := ih (j + 1) i' c h hne
      rw [contextBlocksFrom]
      have harith : j + 1 + i' + 1 = j + (i' + 1) + 1 := by omega
      split
      · exact List.mem_cons_of_mem _ (harith ▸ this)
      · exact harith ▸ this

theorem contextBlocksFrom_sound (cs : List RMatch) :
    ∀ (j : Nat) (b : String), b ∈ contextBlocksFrom j cs →
      ∃ i c, cs.get? i = some c ∧ pyStrip c.text ≠ "" ∧
        b = mkBlock (j + i + 1) (pyStrip c.text) := by
  induction cs with
  | nil => intro j b h; cases h
  | cons c0 rest ih =>
    intro j b h
    rw [contextBlocksFrom] at h
    split at h
    · rcases List.mem_cons.mp h with rfl | htl
      · exact ⟨0, c0, rfl, by assumption, by rw [Nat.add_zero]⟩
      · obtain ⟨i, c, hg, hne, hb⟩ := ih (j + 1) b htl
        exact ⟨i + 1, c, by simpa using hg, hne, by rw [hb]; congr 1; omega⟩
    · obtain ⟨i, c, hg, hne, hb⟩ := ih (j + 1) b h
      exact ⟨i + 1, c, by simpa using hg, hne, by rw [hb]; congr 1; omega⟩

theorem contextBlocksFrom_all_empty (cs : List RMatch) :
    (∀ c ∈ cs, pyStrip c.text = "") → ∀ j, contextBlocksFrom j cs = [] := by
  induction cs with
  | nil => intro _ j; rfl
  | cons c0 rest ih =>
    intro h j
    rw [contextBlocksFrom]
    have h0 : pyStrip c0.text = "" := h c0 (by simp)
    simp only [h0, ne_eq, not_true_eq_false, if_false]
    exact ih (fun c hc => h c (by simp [hc])) (j + 1)

/-- C8 (amended): `format_context_and_query` labels each included chunk
`[i+1]` where `i` is its 0-based position in the input list — so skipped
empty-text chunks leave gaps in the numbering rather than the labels being
renumbered consecutively — every label in the context block arises that
way, each labelled block appears in the formatted prompt, and when no
chunk has non-empty text the Context section holds exactly the literal
placeholder line. -/
theorem format_position_labels (chunks : List RMatch) (q : String) :
    (∀ (i : Nat) (c : RMatch), chunks.get? i = some c → pyStrip c.text ≠ "" →
      mkBlock (i + 1) (pyStrip c.text) ∈ contextBlocksFrom 0 chunks ∧
      strContains (format_context_and_query chunks q)
        (mkBlock (i + 1) (pyStrip c.text)) = true) ∧
    (∀ b ∈ contextBlocksFrom 0 chunks, ∃ i c, chunks.get? i = some c ∧
      pyStrip c.text ≠ "" ∧ b = mkBlock (i + 1) (pyStrip c.text)) ∧
    ((∀ c ∈ chunks, pyStrip c.text = "") →
      format_context_and_query chunks q =
        "You are an expert assistant. Use the following retrieved context to answer the user's question.\n    \nContext:\n"
          ++ noContextPlaceholder ++ "\n\nQuestion:\n" ++ q ++ "\n\nAnswer:") := by
  refine ⟨?_, ?_, ?_⟩
  · intro i c hg hne
    have hmem := contextBlocksFrom_mem chunks 0 i c hg hne
    rw [Nat.zero_add] at hmem
    refine ⟨hmem, ?_⟩
    rw [format_context_and_query]
    have hblocks : contextBlocksFrom 0 chunks ≠ [] := fun he => by
      rw [he] at hmem; cases hmem
    simp only [hblocks, if_false]
    rw [strContains]
    simp only [String.data_append, List.append_assoc]
    have hjoin := listContains_pyJoin "\n\n" (contextBlocksFrom 0 chunks) _ hmem
    apply listContains_append_right
    apply listContains_append_left
    exact hjoin
  · intro b hb
    obtain ⟨i, c, hg, hne, hbe⟩ := contextBlocksFrom_sound chunks 0 b hb
    exact ⟨i, c, hg, hne, by rw [hbe]; congr 1; omega⟩
  · intro hall
    rw [format_context_and_query, contextBlocksFrom_all_empty chunks hall 0]
    simp [pyJoin]

/-- Witness for `format_position_labels`: a whitespace-only first chunk is
skipped, and the second chunk keeps the label `[2]` of its input position. -/
theorem format_position_labels_witness :
    mkBlock 2 (pyStrip (RMatch.text ⟨mkRat 1 2, "hello"⟩)) ∈
      contextBlocksFrom 0 [⟨mkRat 1 2, " "⟩, ⟨mkRat 1 2, "hello"⟩] ∧
    strContains (format_context_and_query [⟨mkRat 1 2, " "⟩, ⟨mkRat 1 2, "hello"⟩] "Q?")
      (mkBlock 2 (pyStrip (RMatch.text ⟨mkRat 1 2, "hello"⟩))) = true ∧
    format_context_and_query [⟨mkRat 1 2, " "⟩] "Q?" =
      "You are an expert assistant. Use the following retrieved context to answer the user's question.\n    \nContext:\n"
        ++ noContextPlaceholder ++ "\n\nQuestion:\n" ++ "Q?" ++ "\n\nAnswer:" := by
  refine ⟨?_, ?_, ?_⟩
  · exact ((format_position_labels [⟨mkRat 1 2, " "⟩, ⟨mkRat 1 2, "hello"⟩] "Q?").1
      1 ⟨mkRat 1 2, "hello"⟩ (by decide) (by decide)).1
  · exact ((format_position_labels [⟨mkRat 1 2, " "⟩, ⟨mkRat 1 2, "hello"⟩] "Q?").1
      1 ⟨mkRat 1 2, "hello"⟩ (by decide) (by decide)).2
  · exact (format_position_labels [⟨mkRat 1 2, " "⟩] "Q?").2.2 (by decide)

/-- C8 counterexample: with a whitespace-only chunk first, the single
included chunk is labelled `[2]`, and no `[1]` label appears anywhere in
the prompt — the included chunks are not labelled `[1], [2], …`
consecutively. -/
theorem format_labels_counterexample :
    strContains (format_context_and_query [⟨mkRat 1 2, " "⟩, ⟨mkRat 1 2, "hello"⟩] "Q?")
      "[2] hello" = true ∧
    strContains (format_context_and_query [⟨mkRat 1 2, " "⟩, ⟨mkRat 1 2, "hello"⟩] "Q?")
      "[1]" = false := by
  refine ⟨by decide, by decide⟩

end HackRX

namespace HackRX

/-! ## Claims C6 and C10: the orchestrator's result shape -/

theorem answerLoop_length (retrieve : String → List RMatch) (document : String) :
    ∀ (qs : List String) (as : List String),
      answerLoop retrieve document qs = .ok as → as.length = qs.length := by
  intro qs
  induction qs with
  | nil =>
    intro as h
    rw [answerLoop, Except.ok.injEq] at h
    subst h
    rfl
  | cons q rest ih =>
    intro as h
    rw [answerLoop] at h
    split at h
    · cases hr : answerLoop retrieve document rest with
      | error e => rw [hr] at h; simp [Except.map] at h
      | ok as' =>
        rw [hr] at h
        simp only [Except.map, Except.ok.injEq] at h
        subst h
        simp [ih as' hr]
    · split at h
      · cases h
      · rename_i a ha
        cases hr : answerLoop retrieve document rest with
        | error e => rw [hr] at h; simp [Except.map] at h
        | ok as' =>
          rw [hr] at h
          simp only [Except.map, Except.ok.injEq] at h
          subst h
          simp [ih as' hr]

theorem process_file_shape (encode : String → List Nat) (decode : List Nat → String)
    (extract : Except String String) (embed : List Chunk → Except String Unit)
    (retrieve : String → List RMatch) (filename : String) :
    ∀ (qs : List String) (r : ProcessResult),
      process_file encode decode extract embed retrieve filename (some qs) = some r →
      (r.success = true →
        r.answers.length = qs.length ∧ r.questionsProcessed = qs.length) ∧
      (r.success = false → r.answers = []) := by
  intro qs r h
  rw [process_file.eq_def] at h
  cases extract with
  | error e =>
    rw [Option.some.injEq] at h
    subst h
    exact ⟨(fun hs => nomatch hs), fun _ => rfl⟩
  | ok document =>
    simp only at h
    split at h
    · rw [Option.some.injEq] at h
      subst h
      exact ⟨(fun hs => nomatch hs), fun _ => rfl⟩
    · split at h
      · cases h
      · split at h
        · rw [Option.some.injEq] at h
          subst h
          exact ⟨(fun hs => nomatch hs), fun _ => rfl⟩
        · split at h
          · rw [Option.some.injEq] at h
            subst h
            exact ⟨(fun hs => nomatch hs), fun _ => rfl⟩
          · split at h
            · rw [Option.some.injEq] at h
              subst h
              exact ⟨(fun hs => nomatch hs), fun _ => rfl⟩
            · rename_i answers hloop
              rw [Option.some.injEq] at h
              subst h
              refine ⟨fun _ => ⟨?_, rfl⟩, (fun hs => nomatch hs)⟩
              exact answerLoop_length retrieve document
                ((some qs).getD [defaultQuestion]) answers hloop

/-- C6 (amended): on every completed orchestrator run with an explicit
questions list, success implies one answer per question (and
`questions_processed` equal to the question count), failure carries the
empty answers list, and for a non-empty questions list the answer count
matches the question count exactly when the run succeeded.  For the empty
questions list the equivalence degenerates: a failed run also has 0 = 0
answers.  In particular an empty questions list over a valid document
succeeds with `answers = []` and `questions_processed = 0`. -/
theorem process_file_success_length (encode : String → List Nat)
    (decode : List Nat → String) (extract : Except String String)
    (embed : List Chunk → Except String Unit) (retrieve : String → List RMatch)
    (filename : String) (qs : List String) (r : ProcessResult)
    (h : process_file encode decode extract embed retrieve filename (some qs) = some r) :
    (r.success = true → r.answers.length = qs.length) ∧
    (r.success = false → r.answers = []) ∧
    (qs ≠ [] → (r.success = true ↔ r.answers.length = qs.length)) ∧
    process_file (fun s => List.replicate s.length 0) (fun _ => "a") (.ok "document")
        (fun _ => .ok ()) (fun _ => []) "f.txt" (some []) =
      some (.ok [] ⟨"f.txt", 1, 0, 8⟩) := by
  obtain ⟨hok, hfail⟩ := process_file_shape encode decode extract embed retrieve
    filename qs r h
  refine ⟨fun hs => (hok hs).1, hfail, ?_, by decide⟩
  intro hne
  constructor
  · exact fun hs => (hok hs).1
  · intro hlen
    cases hs : r.success with
    | true => rfl
    | false =>
      rw [hfail hs] at hlen
      exact absurd (List.eq_nil_of_length_eq_zero hlen.symm) hne

/-- Witness for `process_file_success_length` at a successful run over the
empty questions list. -/
theorem process_file_success_length_witness :
    ((ProcessResult.ok [] ⟨"f.txt", 1, 0, 8⟩).success = true →
      (ProcessResult.ok [] ⟨"f.txt", 1, 0, 8⟩).answers.length = ([] : List String).length) ∧
    ((ProcessResult.ok [] ⟨"f.txt", 1, 0, 8⟩).success = false →
      (ProcessResult.ok [] ⟨"f.txt", 1, 0, 8⟩).answers = []) :=
  ⟨((process_file_success_length (fun s => List.replicate s.length 0) (fun _ => "a")
      (.ok "document") (fun _ => .ok ()) (fun _ => []) "f.txt" []
      (.ok [] ⟨"f.txt", 1, 0, 8⟩) (by decide)).1),
   ((process_file_success_length (fun s => List.replicate s.length 0) (fun _ => "a")
      (.ok "document") (fun _ => .ok ()) (fun _ => []) "f.txt" []
      (.ok [] ⟨"f.txt", 1, 0, 8⟩) (by decide)).2.1)⟩

/-- C6 counterexample: a failing extraction with an empty questions list
yields a failure result whose answers count (0) still equals the question
count (0) — the biconditional "length matches iff success" is false. -/
theorem process_file_length_iff_counterexample :
    process_file (fun s => List.replicate s.length 0) (fun _ => "a") (.error "boom")
        (fun _ => .ok ()) (fun _ => []) "f.txt" (some []) = some (.fail "boom") ∧
    (ProcessResult.fail "boom").success = false ∧
    (ProcessResult.fail "boom").answers.length = ([] : List String).length := by
  refine ⟨by decide, by decide, by decide⟩

/-- C10: `questions = None` is replaced by the single default question
"What is this document about?" (not treated as zero questions), so a
successful run returns exactly one answer and `questions_processed = 1`;
the concrete run shows such a success. -/
theorem process_file_none_default :
    (∀ (encode : String → List Nat) (decode : List Nat → String)
        (extract : Except String String) (embed : List Chunk → Except String Unit)
        (retrieve : String → List RMatch) (filename : String),
      process_file encode decode extract embed retrieve filename none =
        process_file encode decode extract embed retrieve filename
          (some [defaultQuestion])) ∧
    (∀ (encode : String → List Nat) (decode : List Nat → String)
        (extract : Except String String) (embed : List Chunk → Except String Unit)
        (retrieve : String → List RMatch) (filename : String) (r : ProcessResult),
      process_file encode decode extract embed retrieve filename none = some r →
      r.success = true → r.answers.length = 1 ∧ r.questionsProcessed = 1) ∧
    process_file (fun s => List.replicate s.length 0) (fun _ => "a") (.ok "document")
        (fun _ => .ok ()) (fun _ => []) "f.txt" none =
      some (.ok [noRelevantMsg] ⟨"f.txt", 1, 1, 8⟩) := by
  refine ⟨fun _ _ _ _ _ _ => rfl, ?_, by decide⟩
  intro encode decode extract embed retrieve filename r h hs
  have hsome : process_file encode decode extract embed retrieve filename
      (some [defaultQuestion]) = some r := h
  obtain ⟨hok, _⟩ := process_file_shape encode decode extract embed retrieve
    filename [defaultQuestion] r hsome
  exact ⟨(hok hs).1, (hok hs).2⟩

/-- Witness for `process_file_none_default` at a concrete successful run. -/
theorem process_file_none_default_witness :
    (ProcessResult.ok [noRelevantMsg] ⟨"f.txt", 1, 1, 8⟩).answers.length = 1 ∧
    (ProcessResult.ok [noRelevantMsg] ⟨"f.txt", 1, 1, 8⟩).questionsProcessed = 1 :=
  process_file_none_default.2.1 (fun s => List.replicate s.length 0) (fun _ => "a")
    (.ok "document") (fun _ => .ok ()) (fun _ => []) "f.txt"
    (.ok [noRelevantMsg] ⟨"f.txt", 1, 1, 8⟩) (by decide) (by decide)

end HackRX

namespace HackRX

/-! ## Claim C4: window structure of basic chunking -/

theorem chunkLoop_start_count (decode : List Nat → String) (tokens : List Nat)
    (size overlap : Nat) (source : String) (hso : overlap ≤ size) :
    ∀ (fuel k idx : Nat) (L : List Chunk),
      chunkLoop decode tokens size overlap source fuel
        ((k * (size - overlap) : Nat) : Int) idx = some L →
      ∀ c ∈ L, c.metadata.token_count ≤ size ∧
        ∃ j : Nat, c.metadata.start_token = some ((j * (size - overlap) : Nat) : Int) := by
  intro fuel
  induction fuel with
  | zero => intro k idx L h; rw [chunkLoop] at h; exact absurd h (by simp)
  | succ f ih =>
    intro k idx L h
    have hcast : ((k * (size - overlap) : Nat) : Int) + ((size : Int) - (overlap : Int)) =
        (((k + 1) * (size - overlap) : Nat) : Int) := by
      push_cast [hso]
      ring
    have hend : ((k * (size - overlap) : Nat) : Int) + (size : Int) =
        ((k * (size - overlap) + size : Nat) : Int) := by push_cast; ring
    rw [chunkLoop] at h
    by_cases hg : ((k * (size - overlap) : Nat) : Int) < (tokens.length : Int)
    · rw [if_pos hg, hend, hcast] at h
      split at h
      · obtain ⟨rest, hrest, hL⟩ := Option.map_eq_some'.mp h
        subst hL
        intro c hc
        rcases List.mem_cons.mp hc with rfl | htl
        · refine ⟨?_, k, rfl⟩
          show (pySlice tokens ((k * (size - overlap) : Nat) : Int)
            ((k * (size - overlap) + size : Nat) : Int)).length ≤ size
          rw [pySlice_length_nat]
          omega
        · exact ih (k + 1) (idx + 1) rest hrest c htl
      · exact ih (k + 1) idx L h
    · rw [if_neg hg, Option.some.injEq] at h
      subst h
      intro c hc
      cases hc

theorem chunkLoop_coverage (decode : List Nat → String) (tokens : List Nat)
    (size overlap : Nat) (source : String) (hso : overlap < size)
    (H : ∀ j : Nat, j * (size - overlap) < tokens.length →
      pyStrip (decode (pySlice tokens ((j * (size - overlap) : Nat) : Int)
        ((j * (size - overlap) + size : Nat) : Int))) ≠ "") :
    ∀ (fuel k idx : Nat) (L : List Chunk),
      chunkLoop decode tokens size overlap source fuel
        ((k * (size - overlap) : Nat) : Int) idx = some L →
      ∀ t : Nat, k * (size - overlap) ≤ t → t < tokens.length →
        ∃ c ∈ L, ∃ s : Nat, c.metadata.start_token = some ((s : Nat) : Int) ∧
          s ≤ t ∧ t < s + c.metadata.token_count := by
  intro fuel
  induction fuel with
  | zero => intro k idx L h; rw [chunkLoop] at h; exact absurd h (by simp)
  | succ f ih =>
    intro k idx L h t hkt htn
    have hk : k * (size - overlap) < tokens.length := lt_of_le_of_lt hkt htn
    have hg : ((k * (size - overlap) : Nat) : Int) < (tokens.length : Int) := by
      exact_mod_cast hk
    have hcast : ((k * (size - overlap) : Nat) : Int) + ((size : Int) - (overlap : Int)) =
        (((k + 1) * (size - overlap) : Nat) : Int) := by
      push_cast [hso.le]
      ring
    have hend : ((k * (size - overlap) : Nat) : Int) + (size : Int) =
        ((k * (size - overlap) + size : Nat) : Int) := by push_cast; ring
    rw [chunkLoop, if_pos hg, hend, hcast, if_pos (H k hk)] at h
    obtain ⟨rest, hrest, hL⟩ := Option.map_eq_some'.mp h
    subst hL
    by_cases hcase : t < k * (size - overlap) + size
    · refine ⟨_, List.mem_cons_self _ _, k * (size - overlap), rfl, hkt, ?_⟩
      show t < k * (size - overlap) + (pySlice tokens ((k * (size - overlap) : Nat) : Int)
        ((k * (size - overlap) + size : Nat) : Int)).length
      rw [pySlice_length_nat]
      omega
    · have hnext : (k + 1) * (size - overlap) ≤ t := by
        have hmul : (k + 1) * (size - overlap) = k * (size - overlap) + (size - overlap) := by
          ring
        omega
      obtain ⟨c, hcL, s, hs⟩ := ih (k + 1) (idx + 1) rest hrest t hnext htn
      exact ⟨c, List.mem_cons_of_mem _ hcL, s, hs⟩

theorem chunkLoop_head_start (decode : List Nat → String) (tokens : List Nat)
    (size overlap : Nat) (source : String) (_hso : overlap < size)
    (H : ∀ j : Nat, j * (size - overlap) < tokens.length →
      pyStrip (decode (pySlice tokens ((j * (size - overlap) : Nat) : Int)
        ((j * (size - overlap) + size : Nat) : Int))) ≠ "") :
    ∀ (fuel k idx : Nat) (c : Chunk) (L' : List Chunk),
      chunkLoop decode tokens size overlap source fuel
        ((k * (size - overlap) : Nat) : Int) idx = some (c :: L') →
      c.metadata.start_token = some ((k * (size - overlap) : Nat) : Int) := by
  intro fuel k idx c L' h
  cases fuel with
  | zero => rw [chunkLoop] at h; exact absurd h (by simp)
  | succ f =>
    rw [chunkLoop] at h
    by_cases hg : ((k * (size - overlap) : Nat) : Int) < (tokens.length : Int)
    · have hk : k * (size - overlap) < tokens.length := by exact_mod_cast hg
      have hend : ((k * (size - overlap) : Nat) : Int) + (size : Int) =
          ((k * (size - overlap) + size : Nat) : Int) := by push_cast; ring
      rw [if_pos hg, hend, if_pos (H k hk)] at h
      obtain ⟨rest, _, hL⟩ := Option.map_eq_some'.mp h
      rw [List.cons.injEq] at hL
      rw [← hL.1]
    · rw [if_neg hg] at h
      simp at h

/-- Two consecutive emitted windows: the later one starts exactly
`chunk_size − chunk_overlap` after the earlier, so when the earlier spans a
full `chunk_size` tokens the shared range is exactly `chunk_overlap`. -/
def windowChain (size overlap : Nat) (a b : Chunk) : Prop :=
  ∃ sa sb : Nat, a.metadata.start_token = some ((sa : Nat) : Int) ∧
    b.metadata.start_token = some ((sb : Nat) : Int) ∧
    sb = sa + (size - overlap) ∧
    (a.metadata.token_count = size → sa + a.metadata.token_count = sb + overlap)

theorem chunkLoop_chain (decode : List Nat → String) (tokens : List Nat)
    (size overlap : Nat) (source : String) (hso : overlap < size)
    (H : ∀ j : Nat, j * (size - overlap) < tokens.length →
      pyStrip (decode (pySlice tokens ((j * (size - overlap) : Nat) : Int)
        ((j * (size - overlap) + size : Nat) : Int))) ≠ "") :
    ∀ (fuel k idx : Nat) (L : List Chunk),
      chunkLoop decode tokens size overlap source fuel
        ((k * (size - overlap) : Nat) : Int) idx = some L →
      List.Chain' (windowChain size overlap) L := by
  intro fuel
  induction fuel with
  | zero => intro k idx L h; rw [chunkLoop] at h; exact absurd h (by simp)
  | succ f ih =>
    intro k idx L h
    rw [chunkLoop] at h
    by_cases hg : ((k * (size - overlap) : Nat) : Int) < (tokens.length : Int)
    · have hk : k * (size - overlap) < tokens.length := by exact_mod_cast hg
      have hcast : ((k * (size - overlap) : Nat) : Int) +
          ((size : Int) - (overlap : Int)) =
          (((k + 1) * (size - overlap) : Nat) : Int) := by
        push_cast [hso.le]
        ring
      have hend : ((k * (size - overlap) : Nat) : Int) + (size : Int) =
          ((k * (size - overlap) + size : Nat) : Int) := by push_cast; ring
      rw [if_pos hg, hend, hcast, if_pos (H k hk)] at h
      obtain ⟨rest, hrest, hL⟩ := Option.map_eq_some'.mp h
      subst hL
      have hchain := ih (k + 1) (idx + 1) rest hrest
      cases rest with
      | nil => exact List.chain'_singleton _
      | cons c' rest' =>
        rw [List.chain'_cons]
        refine ⟨?_, hchain⟩
        have hc' := chunkLoop_head_start decode tokens size overlap source hso H
          f (k + 1) (idx + 1) c' rest' hrest
        refine ⟨k * (size - overlap), (k + 1) * (size - overlap), rfl, hc', by ring, ?_⟩
        intro hcount
        rw [hcount]
        have : (k + 1) * (size - overlap) = k * (size - overlap) + (size - overlap) := by
          ring
        omega
    · rw [if_neg hg, Option.some.injEq] at h
      subst h
      exact List.chain'_nil

end HackRX

namespace HackRX

set_option maxRecDepth 20000 in
/-- C4 (amended): for non-whitespace text and `chunk_overlap < chunk_size`,
basic chunking takes successive windows starting at multiples of
`chunk_size − chunk_overlap` and every emitted chunk spans at most
`chunk_size` tokens; provided no window decodes to whitespace-only text
(empty-after-strip windows are dropped and leave gaps), the emitted chunks'
token ranges together cover `[0, N)` and each consecutive pair of chunks
starts `chunk_size − chunk_overlap` apart, so they overlap by exactly
`chunk_overlap` tokens whenever the earlier chunk spans a full `chunk_size`
tokens (the final chunk — and the shared range into it, when the earlier
window is already clipped by the end of the text — may be shorter).  In
particular, for N = 500, `chunk_size = 400`, `chunk_overlap = 50` exactly
two chunks are returned, spanning tokens [0,400) and [350,500). -/
theorem chunk_text_window_structure (encode : String → List Nat)
    (decode : List Nat → String) (text : String) (size overlap : Nat)
    (source : String) (L : List Chunk) (hso : overlap < size)
    (htext : pyStrip text ≠ "")
    (hL : chunk_text encode decode text size overlap source = some L) :
    ((∀ c ∈ L, c.metadata.token_count ≤ size ∧
        ∃ k : Nat, c.metadata.start_token = some ((k * (size - overlap) : Nat) : Int)) ∧
      ((∀ j : Nat, j * (size - overlap) < (encode text).length →
          pyStrip (decode (pySlice (encode text) ((j * (size - overlap) : Nat) : Int)
            ((j * (size - overlap) + size : Nat) : Int))) ≠ "") →
        (∀ t : Nat, t < (encode text).length → ∃ c ∈ L, ∃ s : Nat,
          c.metadata.start_token = some ((s : Nat) : Int) ∧ s ≤ t ∧
            t < s + c.metadata.token_count) ∧
        List.Chain' (windowChain size overlap) L)) ∧
    chunk_text (fun _ => List.replicate 500 0) (fun _ => "a") "x" 400 50 "doc" =
      some [⟨"doc-chunk-0", "a", ⟨"doc", 0, some 0, some 400, 400⟩⟩,
            ⟨"doc-chunk-1", "a", ⟨"doc", 1, some 350, some 750, 150⟩⟩] := by
  refine ⟨?_, by decide⟩
  rw [chunk_text, if_neg htext] at hL
  split at hL
  · rename_i hzero
    rw [Option.some.injEq] at hL
    subst hL
    refine ⟨(fun c hc => absurd hc (List.not_mem_nil c)), ?_⟩
    intro _
    refine ⟨?_, List.chain'_nil⟩
    intro t ht
    omega
  · rename_i hzero
    rw [show (0 : Int) = ((0 * (size - overlap) : Nat) : Int) by simp] at hL
    constructor
    · exact chunkLoop_start_count decode (encode text) size overlap source hso.le
        ((encode text).length + 1) 0 0 L hL
    · intro H
      constructor
      · intro t ht
        exact chunkLoop_coverage decode (encode text) size overlap source hso H
          ((encode text).length + 1) 0 0 L hL t (by omega) ht
      · exact chunkLoop_chain decode (encode text) size overlap source hso H
          ((encode text).length + 1) 0 0 L hL

set_option maxRecDepth 20000 in
/-- Witness for `chunk_text_window_structure` at the 500-token scenario. -/
theorem chunk_text_window_structure_witness :
    ((⟨"doc-chunk-0", "a", ⟨"doc", 0, some 0, some 400, 400⟩⟩ : Chunk).metadata.token_count
        ≤ 400 ∧
      ∃ k : Nat, (⟨"doc-chunk-0", "a", ⟨"doc", 0, some 0, some 400, 400⟩⟩ :
        Chunk).metadata.start_token = some ((k * (400 - 50) : Nat) : Int)) ∧
    List.Chain' (windowChain 400 50)
      [⟨"doc-chunk-0", "a", ⟨"doc", 0, some 0, some 400, 400⟩⟩,
       ⟨"doc-chunk-1", "a", ⟨"doc", 1, some 350, some 750, 150⟩⟩] := by
  have h := chunk_text_window_structure (fun _ => List.replicate 500 0) (fun _ => "a")
    "x" 400 50 "doc"
    [⟨"doc-chunk-0", "a", ⟨"doc", 0, some 0, some 400, 400⟩⟩,
     ⟨"doc-chunk-1", "a", ⟨"doc", 1, some 350, some 750, 150⟩⟩]
    (by omega) (by decide) (by decide)
  refine ⟨h.1.1 _ (by simp), ?_⟩
  exact (h.1.2 (fun j hj => (by decide : pyStrip "a" ≠ ""))).2

/-- C4 counterexample: two concrete runs refute the claim as stated.
First, with 3 tokens, `chunk_size = 1 > chunk_overlap = 0` and a decoder
whose middle window is whitespace, the emitted chunks span [0,1) and [2,3):
token 1 lies in neither, so the ranges do not cover [0, N).  Second, with 3
tokens and `chunk_size = 4 > chunk_overlap = 2`, the chunks span [0,3) and
[2,3): the consecutive chunks share exactly 1 token, not
`chunk_overlap = 2`, although only the final chunk is shorter-than-window
in the sense of the claim's exception. -/
theorem chunk_text_window_counterexample :
    chunk_text (fun _ => [0, 1, 2]) (fun w => if w = [1] then " " else "a") "x" 1 0 "doc" =
      some [⟨"doc-chunk-0", "a", ⟨"doc", 0, some 0, some 1, 1⟩⟩,
            ⟨"doc-chunk-1", "a", ⟨"doc", 1, some 2, some 3, 1⟩⟩] ∧
    ((fun (_ : String) => [0, 1, 2]) "x").length = 3 ∧
    ¬((1 : Nat) < 0 + 1) ∧ ¬((2 : Nat) ≤ 1) ∧
    chunk_text (fun _ => [0, 1, 2]) (fun _ => "a") "x" 4 2 "doc" =
      some [⟨"doc-chunk-0", "a", ⟨"doc", 0, some 0, some 4, 3⟩⟩,
            ⟨"doc-chunk-1", "a", ⟨"doc", 1, some 2, some 6, 1⟩⟩] ∧
    (0 + 3 : Nat) - 2 = 1 ∧ (1 : Nat) ≠ 2 := by
  refine ⟨by decide, by decide, by decide, by decide, by decide, by decide, by decide⟩

end HackRX
